import Mathlib

/-!
Verification of the training utilities in `code/utils/helper.py`
(GenEx_Cyberbullying).

Tensors are embedded as (nested) lists of rationals: a float tensor of
shape `(batch, length)` becomes `List (List ℚ)`, a 3-D tensor becomes
`List (List (List ℚ))`, and an integer id tensor becomes `List (List ℕ)`.
Float arithmetic is idealised as exact rational arithmetic.  The
transcendental functions used by the code (`torch.log`, `torch.exp`, the
softmax exponential, and the fourth root taken by the BLEU geometric
mean) are abstracted as explicit function parameters, so every
definition stays executable; theorems that need facts about them (for
example that the real fourth root of a positive number is positive) take
those facts as hypotheses.

The stochastic `torch.multinomial` draw is abstracted as an oracle
`multinomial : List (List ℚ) → List ℕ` returning one sampled index per
row of the matrix it is given, exactly as `torch.multinomial(s, 1)`
does; theorems about sampling assume the oracle's contract (one index
per row, each index inside the vocabulary).
-/

namespace GenEx

/-- Mean of a 1-D tensor, `t.mean()`: sum of the entries divided by their
number (rational division, so the empty mean is 0). -/
def tensorMean (l : List ℚ) : ℚ := l.sum / l.length

/-- Embedding of `make_padding_mask(input_ids, padding_idx)`:
`padding_mask = input_ids.eq(padding_idx)` builds a fresh boolean tensor,
and `None` is returned instead when `not padding_mask.any()`. -/
def make_padding_mask (input_ids : List (List ℤ)) (padding_idx : ℤ) :
    Option (List (List Bool)) :=
  let padding_mask := input_ids.map (fun row => row.map (fun x => decide (x = padding_idx)))
  if padding_mask.any (fun row => row.any (fun b => b)) then some padding_mask else none

/-- Row `i` of the mask built by `mask = torch.zeros(batch_size, max_len)`
followed by `mask[i, :l] = 1`: entry `j` is 1 exactly when `j < l`. -/
def maskRow (max_len l : ℕ) : List ℚ :=
  (List.range max_len).map (fun j => if j < l then (1 : ℚ) else 0)

/-- Embedding of `cal_reward_loss(sample_probs, reward, idxs)`.  `logf`
abstracts `torch.log`.  With `idxs` present the code computes
`output = -log(sample_probs) * reward * mask` (reward broadcast along the
length axis) and returns `(output.sum(-1) / mask.sum(-1)).mean()`;
without `idxs` it returns `(-log(sample_probs) * reward).mean()`. -/
def cal_reward_loss (logf : ℚ → ℚ) (sample_probs : List (List ℚ)) (reward : List ℚ)
    (idxs : Option (List ℕ)) : ℚ :=
  let sample_logprobs := sample_probs.map (fun row => row.map logf)
  match idxs with
  | some ls =>
    let max_len := (sample_probs.headD []).length
    let output := List.zipWith3
      (fun lp r l =>
        let m := maskRow max_len l
        (List.zipWith (fun x mm => -x * r * mm) lp m).sum / m.sum)
      sample_logprobs reward ls
    tensorMean output
  | none =>
    let output := List.zipWith (fun lp r => lp.map (fun x => -x * r)) sample_logprobs reward
    tensorMean output.flatten

/-- Embedding of `sample_3d(probs, temperature)`.  `expf`/`logf` abstract
`torch.exp`/`torch.log` (only used in the `temperature != 1` rescaling
branch) and `multinomial` abstracts the random draw `torch.multinomial(s, 1)`
on one `(length, vocab)` matrix.  For each batch row the sampled
probabilities are gathered from the (possibly rescaled) distribution at
the sampled indices, `s.gather(1, temp_idx)`. -/
def sample_3d (expf logf : ℚ → ℚ) (multinomial : List (List ℚ) → List ℕ)
    (probs : List (List (List ℚ))) (temperature : ℚ) :
    List (List ℚ) × List (List ℕ) :=
  let temp := if temperature ≠ 1 then
      probs.map (fun s => s.map (fun row =>
        row.map (fun p => expf (logf (p + 1 / 10 ^ 20) / temperature))))
    else probs
  let rows := temp.map (fun s =>
    let temp_idx := multinomial s
    let temp_probs := List.zipWith (fun row j => row.getD j 0) s temp_idx
    (temp_probs, temp_idx))
  (rows.map Prod.fst, rows.map Prod.snd)

/-- List of `n`-grams of a token sequence, in order. -/
def ngramList (n : ℕ) (s : List ℕ) : List (List ℕ) :=
  (List.range (s.length + 1 - n)).map (fun i => (s.drop i).take n)

/-- Clipped `n`-gram match count of a hypothesis against one reference:
for each distinct `n`-gram of the hypothesis, its hypothesis count capped
by its reference count. -/
def modPrecNum (n : ℕ) (hyp ref : List ℕ) : ℕ :=
  ((ngramList n hyp).dedup.map
    (fun g => min ((ngramList n hyp).count g) ((ngramList n ref).count g))).sum

/-- Modelled from the spec: the `n`-gram modified precision with the
classic method1 smoothing of `nltk`'s `SmoothingFunction` (the library is
not part of this repository's sources).  Per spec section 4.4 the
smoothing adds a small constant (method1's default epsilon, 0.1) to the
match count of an order with zero matches; the denominator is the number
of hypothesis `n`-grams, floored at 1. -/
def smoothedPrec (n : ℕ) (hyp ref : List ℕ) : ℚ :=
  if modPrecNum n hyp ref = 0 then (1 / 10) / max 1 ((ngramList n hyp).length : ℚ)
  else (modPrecNum n hyp ref : ℚ) / max 1 ((ngramList n hyp).length : ℚ)

/-- Modelled from the spec: `nltk.translate.bleu_score.sentence_bleu` with
`smoothing_function=SmoothingFunction().method1` and a single reference
(the library is not part of this repository's sources).  Per spec
sections 4.4 and the glossary, the score combines the smoothed modified
precisions of orders 1..4 (uniform weights 1/4) into one 0-1 value; the
weighted geometric mean `exp(Σ (1/4)·log pₙ) = (p₁p₂p₃p₄)^(1/4)` is
abstracted as the parameter `gm` applied to the product of the four
smoothed precisions. -/
def sentence_bleu (gm : ℚ → ℚ) (ref hyp : List ℕ) : ℚ :=
  gm (((List.range 4).map (fun k => smoothedPrec (k + 1) hyp ref)).prod)

/-- Embedding of `cal_bl_reward(inp, tgt)`: for each `hyp, ref` pair of
`zip(inp, tgt)` (Python `zip` truncates to the shorter list), the
smoothed sentence-BLEU of `hyp` against the single reference `ref`,
collected into a reward vector. -/
def cal_bl_reward (gm : ℚ → ℚ) (inp tgt : List (List ℕ)) : List ℚ :=
  (inp.zip tgt).map (fun p => sentence_bleu gm p.2 p.1)

/-- Cut position used in `cal_bl_loss`:
`e = torch.arange(len(s))[s.eq(eos)]; e = e[0] if 0 < len(e) and 0 < e[0] < i else i - 1`. -/
def first_eos_cut (eos i : ℕ) (s : List ℕ) : ℕ :=
  match (List.range s.length).filter (fun j => s.getD j 0 = eos) with
  | e0 :: _ => if 0 < e0 ∧ e0 < i then e0 else i - 1
  | [] => i - 1

/-- Cut position used in `cal_sc_loss` (guard bound 4 instead of 0):
`e = e[0] if 0 < len(e) and 4 < e[0] < i else i - 1`. -/
def sc_eos_cut (eos i : ℕ) (s : List ℕ) : ℕ :=
  match (List.range s.length).filter (fun j => s.getD j 0 = eos) with
  | e0 :: _ => if 4 < e0 ∧ e0 < i then e0 else i - 1
  | [] => i - 1

/-- Statement-side cut position, written from the spec's words: the
first position `e` holding the end-of-sequence token, provided
`0 < e < i`, and otherwise `i - 1`. -/
def specFirstEosCut (eos i : ℕ) (s : List ℕ) : ℕ :=
  match s.findIdx? (fun a => a = eos) with
  | some e => if 0 < e ∧ e < i then e else i - 1
  | none => i - 1

/-- Softmax of one logit row, `F.softmax(row, -1)`, with the exponential
abstracted as `expf`. -/
def softmaxRow (expf : ℚ → ℚ) (row : List ℚ) : List ℚ :=
  row.map (fun x => expf x / (row.map expf).sum)

/-- Index of the (first) maximal entry of a row, the index part of
`torch.max(out, dim=-1)`. -/
def argmaxIdx (row : List ℚ) : ℕ :=
  (List.range row.length).foldl
    (fun best j => if row.getD best 0 < row.getD j 0 then j else best) 0

/-- Pointwise combination of four lists, truncating to the shortest, as
Python `zip` over four sequences does. -/
def zipWith4 (f : α → β → γ → δ → ε) : List α → List β → List γ → List δ → List ε
  | a :: as, b :: bs, c :: cs, d :: ds => f a b c d :: zipWith4 f as bs cs ds
  | _, _, _, _ => []

/-- Truncation loop of `cal_bl_loss`: for each batch row with target
length `i`, sampled row `s`, greedy row `g` and reference row `t`, the
triple `(s[:s_e], g[:g_e], t[1:i])` with the cut positions of
`first_eos_cut`. -/
def bl_truncations (eos : ℕ) (idx : List ℕ) (sample_idx greedy_idx tgt : List (List ℕ)) :
    List (List ℕ × List ℕ × List ℕ) :=
  zipWith4
    (fun i s g t =>
      (s.take (first_eos_cut eos i s), g.take (first_eos_cut eos i g),
        (t.drop 1).take (i - 1)))
    idx sample_idx greedy_idx tgt

/-- Shared first stage of `cal_sc_loss` and `cal_bl_loss`:
`out = F.softmax(out, dim=-1)`, applied row by row to the 3-D logits. -/
def softmax3d (expf : ℚ → ℚ) (out : List (List (List ℚ))) : List (List (List ℚ)) :=
  out.map (fun s => s.map (softmaxRow expf))

/-- Shared second stage of `cal_sc_loss` and `cal_bl_loss`:
`sample_probs, sample_idx = sample_3d(out)` on the softmaxed logits, at
the default temperature 1. -/
def sampled3 (expf logf : ℚ → ℚ) (multinomial : List (List ℚ) → List ℕ)
    (out : List (List (List ℚ))) : List (List ℚ) × List (List ℕ) :=
  sample_3d expf logf multinomial (softmax3d expf out) 1

/-- Greedy decoding stage of `cal_bl_loss`:
`greedy_probs, greedy_idx = torch.max(out, dim=-1)` (index part). -/
def bl_greedy_idx (expf : ℚ → ℚ) (out : List (List (List ℚ))) : List (List ℕ) :=
  (softmax3d expf out).map (fun s => s.map argmaxIdx)

/-- Truncation stage of `cal_bl_loss` applied to its own sampled and
greedy sequences and the references. -/
def bl_trunc (expf logf : ℚ → ℚ) (multinomial : List (List ℚ) → List ℕ)
    (out : List (List (List ℚ))) (tgt : List (List ℕ)) (idx : List ℕ) (eos : ℕ) :
    List (List ℕ × List ℕ × List ℕ) :=
  bl_truncations eos idx (sampled3 expf logf multinomial out).2 (bl_greedy_idx expf out) tgt

/-- Embedding of `cal_bl_loss(out, tgt, idx, tokenizer)`: softmax the
logits, draw a sampled sequence (`sample_3d`, default temperature 1) and
a greedy sequence (`torch.max`), truncate all three sequence families,
score sampled and greedy against the reference with `cal_bl_reward`, and
feed `(tgt_gre - tgt_sam) * 0.2` with the lengths `idx` into
`cal_reward_loss`. -/
def cal_bl_loss (gm expf logf : ℚ → ℚ) (multinomial : List (List ℚ) → List ℕ)
    (out : List (List (List ℚ))) (tgt : List (List ℕ)) (idx : List ℕ) (eos : ℕ) : ℚ :=
  let trunc := bl_trunc expf logf multinomial out tgt idx eos
  let tgt_sam := cal_bl_reward gm (trunc.map (fun x => x.1)) (trunc.map (fun x => x.2.2))
  let tgt_gre := cal_bl_reward gm (trunc.map (fun x => x.2.1)) (trunc.map (fun x => x.2.2))
  cal_reward_loss logf (sampled3 expf logf multinomial out).1
    ((List.zipWith (fun g s => g - s) tgt_gre tgt_sam).map (fun x => x * (1 / 5)))
    (some idx)

/-- Modelled from the spec: the collation utility `collate_fn` of
`utils/dataset.py` is not part of the given sources; per spec section 6
it takes a list of variable-length id sequences and produces a single
padded batch tensor.  The pad id is abstracted as a parameter. -/
def collate_fn (pad : ℕ) (seqs : List (List ℕ)) : List (List ℕ) :=
  let maxLen := (seqs.map List.length).foldr max 0
  seqs.map (fun s => s ++ List.replicate (maxLen - s.length) pad)

/-- Classifier input of `cal_sc_loss`: each sampled row truncated at its
first end-of-sequence position `e` with `4 < e < i` (else at `i - 1`),
then collated into one padded batch. -/
def sc_tgt_idx (expf logf : ℚ → ℚ) (multinomial : List (List ℚ) → List ℕ)
    (out : List (List (List ℚ))) (idx : List ℕ) (eos pad : ℕ) : List (List ℕ) :=
  collate_fn pad (List.zipWith (fun i s => s.take (sc_eos_cut eos i s)) idx
    (sampled3 expf logf multinomial out).2)

/-- Embedding of `cal_sc_loss(out, idx, cls, tokenizer, style)`: softmax
the logits, draw a sampled sequence, truncate each sampled row at its
first end-of-sequence position `e` with `4 < e < i` (else at `i - 1`),
collate, run the abstract classifier `cls` on the collated batch, softmax
its output, and feed the signed class-probability difference together
with the sampled probabilities and the lengths `idx` into
`cal_reward_loss`. -/
def cal_sc_loss (expf logf : ℚ → ℚ) (multinomial : List (List ℚ) → List ℕ)
    (cls : List (List ℕ) → List (List ℚ)) (out : List (List (List ℚ)))
    (idx : List ℕ) (eos pad : ℕ) (style : ℕ) : ℚ :=
  let tgt_cls := (cls (sc_tgt_idx expf logf multinomial out idx eos pad)).map
    (softmaxRow expf)
  let tgt_reward :=
    if style = 0 then tgt_cls.map (fun row => row.getD 1 0 - row.getD 0 0)
    else tgt_cls.map (fun row => row.getD 0 0 - row.getD 1 0)
  cal_reward_loss logf (sampled3 expf logf multinomial out).1 tgt_reward (some idx)

/-- Training/evaluation mode of a torch module: `model.train()` versus
`model.eval()`. -/
inductive Mode where
  | training
  | evaluation
deriving DecidableEq

/-- State-and-exception computation over the model mode: from a current
mode, produce a result (or a propagating exception) and the final mode. -/
def EvalM (ε α : Type) := Mode → Except ε α × Mode

/-- Python statement sequencing with exceptions: if the first statement
raises, the second is skipped and the exception propagates. -/
def evalSeq {ε α : Type} (x : EvalM ε Unit) (y : EvalM ε α) : EvalM ε α := fun m =>
  match x m with
  | (Except.ok _, m2) => y m2
  | (Except.error e, m2) => (Except.error e, m2)

/-- Effect of `model.eval()` / `model.train()`: set the mode. -/
def setMode {ε : Type} (md : Mode) : EvalM ε Unit := fun _ => (Except.ok (), md)

/-- Lift one loop-body execution (which may raise an exception from the
tensor runtime, spec section 7) into the mode-state computation; the body
itself never touches the mode. -/
def liftBody {ε : Type} (r : Except ε Unit) : EvalM ε Unit := fun m => (r, m)

/-- The `for batch in valid_loader:` loop: run the body on each batch in
order, stopping at (and propagating) the first exception. -/
def loopBatches {ε β : Type} (body : β → Except ε Unit) : List β → EvalM ε Unit
  | [] => fun m => (Except.ok (), m)
  | b :: bs => evalSeq (liftBody (body b)) (loopBatches body bs)

/-- First-exception summary of running the loop bodies in order. -/
def runBody {ε β : Type} (body : β → Except ε Unit) : List β → Except ε Unit
  | [] => Except.ok ()
  | b :: bs =>
    match body b with
    | Except.ok _ => runBody body bs
    | Except.error e => Except.error e

/-- Mode-changing control skeleton of `evaluate(model, valid_loader, ...)`:
`model.eval()`, then the batch loop inside `torch.no_grad()` (the loop
body's tensor work is abstracted as `body`, and `no_grad` has no
observable effect on the mode), then `model.train()`.  There is no
`try`/`finally`, so statement sequencing alone decides whether
`model.train()` runs. -/
def evaluate {ε β : Type} (body : β → Except ε Unit) (valid_loader : List β) :
    EvalM ε Unit :=
  evalSeq (setMode Mode.evaluation)
    (evalSeq (loopBatches body valid_loader) (setMode Mode.training))

/-- Mode-changing control skeleton of `evaluate_sc(model, valid_loader, ...)`,
identical to that of `evaluate`: `model.eval()`, the batch loop under
`torch.no_grad()`, then `model.train()`, with no `try`/`finally`. -/
def evaluate_sc {ε β : Type} (body : β → Except ε Unit) (valid_loader : List β) :
    EvalM ε Unit :=
  evalSeq (setMode Mode.evaluation)
    (evalSeq (loopBatches body valid_loader) (setMode Mode.training))

/-- Running the batch loop and then `model.train()` from mode `m` yields
the first-exception summary of the bodies, with mode `training` on
success and the incoming mode (never touched again) on an exception. -/
lemma loop_then_train {ε β : Type} (body : β → Except ε Unit) (l : List β) (m : Mode) :
    evalSeq (loopBatches body l) (setMode Mode.training) m =
      (runBody body l,
        match runBody body l with
        | Except.ok _ => Mode.training
        | Except.error _ => m) := by
  induction l generalizing m with
  | nil => rfl
  | cons b bs ih =>
    cases h : body b with
    | ok u =>
      cases u
      simpa [loopBatches, evalSeq, liftBody, runBody, h] using ih m
    | error e =>
      simp [loopBatches, evalSeq, liftBody, runBody, h]

/-- The full `evaluate` / `evaluate_sc` skeletons run the loop from
evaluation mode. -/
lemma evaluate_eq_loop {ε β : Type} (body : β → Except ε Unit) (l : List β) (m0 : Mode) :
    evaluate body l m0 = evalSeq (loopBatches body l) (setMode Mode.training) Mode.evaluation ∧
    evaluate_sc body l m0 = evalSeq (loopBatches body l) (setMode Mode.training) Mode.evaluation :=
  ⟨rfl, rfl⟩

/-- C3 counterexample: with a loop body that raises (here on the very
first batch), `evaluate` and `evaluate_sc` leave the model in evaluation
mode, which is not training mode — `model.train()` is unreachable because
there is no `try`/`finally` around the loop. -/
theorem C3_eval_mode_counterexample :
    (evaluate (fun _ : Unit => (Except.error () : Except Unit Unit)) [()] Mode.training).2
        = Mode.evaluation ∧
    (evaluate_sc (fun _ : Unit => (Except.error () : Except Unit Unit)) [(), ()]
        Mode.training).2 = Mode.evaluation ∧
    Mode.evaluation ≠ Mode.training :=
  ⟨rfl, rfl, by decide⟩

/-- C3 (amended): after `evaluate` or `evaluate_sc` completes normally
the model is back in training mode; but when a loop body raises, the
exception propagates with the model left in evaluation mode, not
training mode. -/
theorem C3_eval_mode_restored {ε β : Type} (body : β → Except ε Unit)
    (valid_loader : List β) (m0 : Mode) :
    (runBody body valid_loader = Except.ok () →
      (evaluate body valid_loader m0).2 = Mode.training ∧
      (evaluate_sc body valid_loader m0).2 = Mode.training) ∧
    (∀ e : ε, runBody body valid_loader = Except.error e →
      evaluate body valid_loader m0 = (Except.error e, Mode.evaluation) ∧
      evaluate_sc body valid_loader m0 = (Except.error e, Mode.evaluation)) := by
  obtain ⟨h1, h2⟩ := evaluate_eq_loop body valid_loader m0
  rw [h1, h2, loop_then_train]
  constructor
  · intro hok
    rw [hok]
    exact ⟨rfl, rfl⟩
  · intro e herr
    rw [herr]
    exact ⟨rfl, rfl⟩

/-- C3 witness: the amended theorem applied at concrete runs: a body
that succeeds leaves training mode, a body that raises leaves the
reported exception and evaluation mode. -/
theorem C3_eval_mode_restored_witness :
    (evaluate (fun _ : Unit => (Except.ok () : Except Unit Unit)) [()] Mode.evaluation).2
        = Mode.training ∧
    evaluate_sc (fun _ : Unit => (Except.error () : Except Unit Unit)) [()] Mode.training
        = (Except.error (), Mode.evaluation) :=
  ⟨((C3_eval_mode_restored (fun _ : Unit => (Except.ok () : Except Unit Unit)) [()]
        Mode.evaluation).1 rfl).1,
    ((C3_eval_mode_restored (fun _ : Unit => (Except.error () : Except Unit Unit)) [()]
        Mode.training).2 () rfl).2⟩

/-- C7: `make_padding_mask` returns the sentinel `None` exactly when no
input id equals the pad id, and otherwise returns the boolean tensor
`input_ids.eq(padding_idx)`, which has the input's shape and is true at
exactly the pad positions.  (The embedding is pure: the code builds the
mask with `Tensor.eq`, which allocates a fresh tensor and leaves
`input_ids` untouched.) -/
theorem C7_make_padding_mask (input_ids : List (List ℤ)) (padding_idx : ℤ) :
    (make_padding_mask input_ids padding_idx = none ↔
      ∀ row ∈ input_ids, ∀ x ∈ row, x ≠ padding_idx) ∧
    ((∃ row ∈ input_ids, ∃ x ∈ row, x = padding_idx) →
      make_padding_mask input_ids padding_idx =
        some (input_ids.map (fun row => row.map (fun x => decide (x = padding_idx))))) := by
  have hc : (input_ids.map (fun row => row.map (fun x => decide (x = padding_idx)))).any
        (fun row => row.any (fun b => b)) = true ↔
      ∃ row ∈ input_ids, ∃ x ∈ row, x = padding_idx := by
    simp [List.any_eq_true]
  by_cases h : ∃ row ∈ input_ids, ∃ x ∈ row, x = padding_idx
  · constructor
    · rw [make_padding_mask, if_pos (hc.mpr h)]
      simp only [reduceCtorEq, false_iff]
      push_neg
      obtain ⟨row, hrow, x, hx, hxp⟩ := h
      exact ⟨row, hrow, x, hx, hxp⟩
    · intro _
      rw [make_padding_mask, if_pos (hc.mpr h)]
  · constructor
    · rw [make_padding_mask, if_neg (fun hcc => h (hc.mp hcc))]
      simp only [true_iff]
      push_neg at h
      exact h
    · intro hx
      exact absurd hx h

/-- C7 witness: on a concrete batch with pads at positions (0,0) and
(1,1), the theorem yields the exact boolean mask. -/
theorem C7_make_padding_mask_witness :
    make_padding_mask [[1, 2], [3, 1]] 1 = some [[true, false], [false, true]] := by
  have h := (C7_make_padding_mask [[1, 2], [3, 1]] 1).2 (by decide)
  simpa using h

/-- Every smoothed modified precision is strictly positive: the
denominator is floored at 1 and a zero match count is replaced by the
smoothing constant 1/10. -/
lemma smoothedPrec_pos (n : ℕ) (hyp ref : List ℕ) : 0 < smoothedPrec n hyp ref := by
  have hden : (0 : ℚ) < max 1 ((ngramList n hyp).length : ℚ) :=
    lt_max_of_lt_left one_pos
  unfold smoothedPrec
  split
  · exact div_pos (by norm_num) hden
  · rename_i hne
    exact div_pos (by exact_mod_cast Nat.pos_of_ne_zero hne) hden

/-- A smoothed sentence-BLEU score is strictly positive whenever the
geometric-mean function preserves positivity (as the real fourth root
does), because all four smoothed precisions are positive. -/
lemma sentence_bleu_pos (gm : ℚ → ℚ) (hgm : ∀ x : ℚ, 0 < x → 0 < gm x)
    (ref hyp : List ℕ) : 0 < sentence_bleu gm ref hyp := by
  apply hgm
  apply List.prod_pos
  intro x hx
  simp only [List.mem_map, List.mem_range] at hx
  obtain ⟨k, _, rfl⟩ := hx
  exact smoothedPrec_pos (k + 1) hyp ref

/-- C9: every score in the reward vector of `cal_bl_reward` is strictly
positive — even for pairs sharing no tokens at all — because the method1
smoothing replaces every zero match count by a positive constant, so all
four precisions entering the geometric mean are positive.  (`hgm`
records that the real fourth root abstracted by `gm` maps positives to
positives.) -/
theorem C9_cal_bl_reward_pos (gm : ℚ → ℚ) (hgm : ∀ x : ℚ, 0 < x → 0 < gm x)
    (inp tgt : List (List ℕ)) (_hlen : inp.length = tgt.length) :
    ∀ k, k < (cal_bl_reward gm inp tgt).length →
      0 < (cal_bl_reward gm inp tgt).getD k 0 := by
  intro k hk
  rw [List.getD_eq_getElem _ _ hk]
  unfold cal_bl_reward at hk ⊢
  rw [List.getElem_map]
  exact sentence_bleu_pos gm hgm _ _

/-- C9 witness: the hypothesis and reference share no token at all, yet
the theorem yields a strictly positive score. -/
theorem C9_cal_bl_reward_pos_witness :
    0 < (cal_bl_reward (fun x => x) [[0]] [[1]]).getD 0 0 :=
  C9_cal_bl_reward_pos (fun x => x) (fun _ h => h) [[0]] [[1]] (by decide) 0 (by decide)

/-- C10: on hypothesis and reference lists of unequal lengths,
`cal_bl_reward` raises nothing (it is a total function): Python's `zip`
silently truncates to the shorter list, so the reward vector has the
minimum of the two lengths and entry `k` scores pair `k`. -/
theorem C10_cal_bl_reward_min_length (gm : ℚ → ℚ) (inp tgt : List (List ℕ)) :
    (cal_bl_reward gm inp tgt).length = min inp.length tgt.length ∧
    ∀ k, k < min inp.length tgt.length →
      (cal_bl_reward gm inp tgt).getD k 0 =
        sentence_bleu gm (tgt.getD k []) (inp.getD k []) := by
  have hlen : (cal_bl_reward gm inp tgt).length = min inp.length tgt.length := by
    simp [cal_bl_reward]
  refine ⟨hlen, fun k hk => ?_⟩
  have hk' : k < (cal_bl_reward gm inp tgt).length := hlen ▸ hk
  rw [List.getD_eq_getElem _ _ hk']
  unfold cal_bl_reward at hk' ⊢
  rw [List.getElem_map, List.getElem_zip]
  rw [List.getD_eq_getElem tgt _ (lt_of_lt_of_le hk (min_le_right _ _)),
    List.getD_eq_getElem inp _ (lt_of_lt_of_le hk (min_le_left _ _))]

/-- C10 witness: two hypotheses against one reference produce one score,
the score of the first pair. -/
theorem C10_cal_bl_reward_min_length_witness :
    (cal_bl_reward (fun x => x) [[0], [1]] [[0]]).length = min 2 1 ∧
    (cal_bl_reward (fun x => x) [[0], [1]] [[0]]).getD 0 0 =
      sentence_bleu (fun x => x) [0] [0] :=
  ⟨(C10_cal_bl_reward_min_length (fun x => x) [[0], [1]] [[0]]).1,
    (C10_cal_bl_reward_min_length (fun x => x) [[0], [1]] [[0]]).2 0 (by decide)⟩

/-- The index computation `torch.arange(len(s))[s.eq(eos)]` followed by
taking the first element agrees with a direct first-index search. -/
lemma filter_range_head_eq_findIdx (eos : ℕ) (s : List ℕ) :
    ((List.range s.length).filter (fun j => s.getD j 0 = eos)).head? =
      s.findIdx? (fun a => a = eos) := by
  induction s with
  | nil => rfl
  | cons a t ih =>
    rw [List.length_cons, List.range_succ_eq_map, List.findIdx?_cons, List.findIdx?_succ]
    by_cases ha : a = eos
    · simp [ha]
    · have hd : decide (a = eos) = false := decide_eq_false ha
      rw [List.filter_cons, List.getD_cons_zero, hd]
      simp only [Bool.false_eq_true, if_false, List.filter_map, Function.comp_def,
        Nat.succ_eq_add_one, List.getD_cons_succ, List.head?_map, ih]

/-- The code's cut position in `cal_bl_loss` equals the spec's formula. -/
lemma first_eos_cut_eq_spec (eos i : ℕ) (s : List ℕ) :
    first_eos_cut eos i s = specFirstEosCut eos i s := by
  unfold first_eos_cut specFirstEosCut
  rw [← filter_range_head_eq_findIdx]
  cases hl : (List.range s.length).filter (fun j => s.getD j 0 = eos) with
  | nil => rfl
  | cons e0 rest => rfl

/-- Pointwise zipping of four equal-length lists keeps the length. -/
lemma zipWith4_length_eq {α β γ δ ε' : Type} (f : α → β → γ → δ → ε')
    (as : List α) (bs : List β) (cs : List γ) (ds : List δ)
    (h1 : bs.length = as.length) (h2 : cs.length = as.length)
    (h3 : ds.length = as.length) :
    (zipWith4 f as bs cs ds).length = as.length := by
  induction as generalizing bs cs ds with
  | nil =>
    simp only [List.length_nil, List.length_eq_zero] at h1 h2 h3
    subst h1; subst h2; subst h3
    rfl
  | cons a as ih =>
    cases bs with
    | nil => simp at h1
    | cons b1 bs =>
      cases cs with
      | nil => simp at h2
      | cons c1 cs =>
        cases ds with
        | nil => simp at h3
        | cons d1 ds =>
          simp only [zipWith4, List.length_cons]
          rw [ih bs cs ds (by simpa using h1) (by simpa using h2) (by simpa using h3)]

/-- Entry `b` of a four-way zip of equal-length lists. -/
lemma zipWith4_getD {α β γ δ ε' : Type} (f : α → β → γ → δ → ε')
    (da : α) (db : β) (dc : γ) (dd : δ) (e0 : ε') :
    ∀ (as : List α) (bs : List β) (cs : List γ) (ds : List δ),
      bs.length = as.length → cs.length = as.length → ds.length = as.length →
      ∀ b, b < as.length →
        (zipWith4 f as bs cs ds).getD b e0 =
          f (as.getD b da) (bs.getD b db) (cs.getD b dc) (ds.getD b dd) := by
  intro as
  induction as with
  | nil =>
    intro bs cs ds _ _ _ b hb
    simp at hb
  | cons a as ih =>
    intro bs cs ds h1 h2 h3 b hb
    cases bs with
    | nil => simp at h1
    | cons b1 bs =>
      cases cs with
      | nil => simp at h2
      | cons c1 cs =>
        cases ds with
        | nil => simp at h3
        | cons d1 ds =>
          cases b with
          | zero => rfl
          | succ b' =>
            simp only [zipWith4, List.getD_cons_succ]
            exact ih bs cs ds (by simpa using h1) (by simpa using h2) (by simpa using h3)
              b' (by simpa using hb)

/-- C4: in `cal_bl_loss`, for each batch row with target length `i`, the
sampled and the greedy sequence are each truncated just before the first
position `e` holding the end-of-sequence token provided `0 < e < i`, and
otherwise truncated to the first `i - 1` positions; the reference
sequence is truncated to positions `[1, i)`.  (The lengths in `idx` are
required to be at least 1, where Python's `s[:i-1]` and the natural
subtraction agree.) -/
theorem C4_bl_truncation (eos : ℕ) (idx : List ℕ)
    (sample_idx greedy_idx tgt : List (List ℕ)) (B : ℕ)
    (hi : idx.length = B) (hs : sample_idx.length = B) (hg : greedy_idx.length = B)
    (ht : tgt.length = B) (_hpos : ∀ i ∈ idx, 1 ≤ i) :
    (bl_truncations eos idx sample_idx greedy_idx tgt).length = B ∧
    ∀ b, b < B →
      (bl_truncations eos idx sample_idx greedy_idx tgt).getD b ([], [], []) =
        ((sample_idx.getD b []).take
            (specFirstEosCut eos (idx.getD b 0) (sample_idx.getD b [])),
          (greedy_idx.getD b []).take
            (specFirstEosCut eos (idx.getD b 0) (greedy_idx.getD b [])),
          ((tgt.getD b []).drop 1).take (idx.getD b 0 - 1)) := by
  constructor
  · rw [bl_truncations,
      zipWith4_length_eq _ idx sample_idx greedy_idx tgt (hs.trans hi.symm)
        (hg.trans hi.symm) (ht.trans hi.symm), hi]
  · intro b hb
    rw [bl_truncations,
      zipWith4_getD _ 0 [] [] [] ([], [], []) idx sample_idx greedy_idx tgt
        (hs.trans hi.symm) (hg.trans hi.symm) (ht.trans hi.symm) b (hi ▸ hb),
      first_eos_cut_eq_spec, first_eos_cut_eq_spec]

/-- Reading a mapped list below its length applies the function to the
corresponding source entry, whatever the defaults. -/
lemma getD_map_of_lt {α β : Type} (f : α → β) (l : List α) (d : α) (d' : β) (i : ℕ)
    (h : i < l.length) : (l.map f).getD i d' = f (l.getD i d) := by
  rw [List.getD_eq_getElem _ _ (by simpa using h), List.getElem_map,
    List.getD_eq_getElem _ _ h]

/-- Reduction of `sample_3d` at the default temperature 1: the rescaling
branch is skipped, the indices are the per-matrix oracle draws and the
probabilities are gathered from the input at those indices. -/
lemma sample_3d_temp_one (expf logf : ℚ → ℚ) (multinomial : List (List ℚ) → List ℕ)
    (probs : List (List (List ℚ))) :
    sample_3d expf logf multinomial probs 1 =
      (probs.map (fun s => List.zipWith (fun row j => row.getD j 0) s (multinomial s)),
        probs.map (fun s => multinomial s)) := by
  simp [sample_3d]

/-- C2: for a probability tensor of shape `(batch, length, vocab)` whose
rows sum to 1, `sample_3d` at the default temperature 1 returns an index
tensor and a probability tensor of shape `(batch, length)` such that
every sampled index lies in `[0, vocab)` and the returned probability at
`(b, t)` is the input probability at `(b, t, sampled index)`.  The
multinomial oracle contract (one index per row, indices inside the
distribution's support dimension) is the hypothesis `hmn`. -/
theorem C2_sample_3d_sound (expf logf : ℚ → ℚ) (multinomial : List (List ℚ) → List ℕ)
    (probs : List (List (List ℚ))) (B L V : ℕ)
    (hB : probs.length = B) (hL : ∀ s ∈ probs, s.length = L)
    (_hV : ∀ s ∈ probs, ∀ row ∈ s, row.length = V)
    (_hsum : ∀ s ∈ probs, ∀ row ∈ s, row.sum = 1)
    (_hB1 : 1 ≤ B) (_hL1 : 1 ≤ L)
    (hmn : ∀ s ∈ probs, (multinomial s).length = s.length ∧ ∀ j ∈ multinomial s, j < V) :
    (sample_3d expf logf multinomial probs 1).1.length = B ∧
    (sample_3d expf logf multinomial probs 1).2.length = B ∧
    (∀ r ∈ (sample_3d expf logf multinomial probs 1).1, r.length = L) ∧
    (∀ r ∈ (sample_3d expf logf multinomial probs 1).2, r.length = L) ∧
    ∀ b t, b < B → t < L →
      ((sample_3d expf logf multinomial probs 1).2.getD b []).getD t 0 < V ∧
      ((sample_3d expf logf multinomial probs 1).1.getD b []).getD t 0 =
        ((probs.getD b []).getD t []).getD
          (((sample_3d expf logf multinomial probs 1).2.getD b []).getD t 0) 0 := by
  rw [sample_3d_temp_one]
  refine ⟨by simpa using hB, by simpa using hB, ?_, ?_, ?_⟩
  · intro r hr
    obtain ⟨s, hs, rfl⟩ := List.mem_map.mp hr
    rw [List.length_zipWith, (hmn s hs).1, hL s hs, min_self]
  · intro r hr
    obtain ⟨s, hs, rfl⟩ := List.mem_map.mp hr
    rw [(hmn s hs).1, hL s hs]
  · intro b t hb htL
    have hb' : b < probs.length := hB ▸ hb
    have hsmem : probs.getD b [] ∈ probs := by
      rw [List.getD_eq_getElem _ _ hb']
      exact List.getElem_mem hb'
    have hmlen : (multinomial (probs.getD b [])).length = L :=
      ((hmn _ hsmem).1).trans (hL _ hsmem)
    have hslen : (probs.getD b []).length = L := hL _ hsmem
    have htm : t < (multinomial (probs.getD b [])).length := hmlen ▸ htL
    have hts : t < (probs.getD b []).length := hslen ▸ htL
    have hidx : ((probs.map (fun s => multinomial s)).getD b []).getD t 0 =
        (multinomial (probs.getD b [])).getD t 0 := by
      rw [getD_map_of_lt (fun s => multinomial s) probs [] [] b hb']
    constructor
    · rw [hidx]
      refine (hmn _ hsmem).2 _ ?_
      rw [List.getD_eq_getElem _ _ htm]
      exact List.getElem_mem htm
    · rw [hidx,
        getD_map_of_lt (fun s => List.zipWith (fun row j => row.getD j 0) s (multinomial s))
          probs [] [] b hb']
      have htz : t < (List.zipWith (fun (row : List ℚ) (j : ℕ) => row.getD j 0)
          (probs.getD b []) (multinomial (probs.getD b []))).length := by
        rw [List.length_zipWith, hslen, hmlen, min_self]
        exact htL
      rw [List.getD_eq_getElem _ _ htz, List.getElem_zipWith,
        List.getD_eq_getElem _ _ hts, List.getD_eq_getElem _ _ htm]

/-- C2 witness: one batch row, one position, a one-token vocabulary with
all mass on token 0, and the oracle drawing index 0 per row. -/
theorem C2_sample_3d_sound_witness :
    ((sample_3d (fun x => x) (fun x => x) (fun s => s.map (fun _ => 0)) [[[1]]] 1).2.getD 0
        []).getD 0 0 < 1 ∧
    ((sample_3d (fun x => x) (fun x => x) (fun s => s.map (fun _ => 0)) [[[1]]] 1).1.getD 0
        []).getD 0 0 =
      ((([[[1]]] : List (List (List ℚ))).getD 0 []).getD 0 []).getD
        (((sample_3d (fun x => x) (fun x => x) (fun s => s.map (fun _ => 0)) [[[1]]]
            1).2.getD 0 []).getD 0 0) 0 :=
  (C2_sample_3d_sound (fun x => x) (fun x => x) (fun s => s.map (fun _ => 0)) [[[1]]] 1 1 1
      (by decide) (by decide) (by decide) (by simp) (by decide) (by decide)
      (by decide)).2.2.2.2 0 0 (by decide) (by decide)

/-- Sum of a function mapped over `List.range` as a `Finset.range` sum. -/
lemma sum_map_range_eq {M : Type} [AddCommMonoid M] (f : ℕ → M) (n : ℕ) :
    ((List.range n).map f).sum = ∑ j in Finset.range n, f j := by
  induction n with
  | zero => rfl
  | succ n ih =>
    rw [List.range_succ, List.map_append, List.sum_append, Finset.sum_range_succ, ih]
    simp

/-- Sum of a mapped list, indexed through `getD`. -/
lemma sum_map_getD {α M : Type} [AddCommMonoid M] (g : α → M) (d : α) :
    ∀ (n : ℕ) (row : List α), row.length = n →
      (row.map g).sum = ∑ j in Finset.range n, g (row.getD j d) := by
  intro n
  induction n with
  | zero =>
    intro row h
    rw [List.length_eq_zero] at h
    subst h
    simp
  | succ n ih =>
    intro row h
    cases row with
    | nil => simp at h
    | cons a row =>
      rw [List.map_cons, List.sum_cons, Finset.sum_range_succ']
      simp only [List.getD_cons_succ, List.getD_cons_zero]
      rw [ih row (by simpa using h)]
      exact add_comm _ _

/-- Sum of a two-way zip of equal-length lists, indexed through `getD`. -/
lemma sum_zipWith_getD {α β M : Type} [AddCommMonoid M] (f : α → β → M) (da : α) (db : β) :
    ∀ (n : ℕ) (as : List α) (bs : List β), as.length = n → bs.length = n →
      (List.zipWith f as bs).sum =
        ∑ i in Finset.range n, f (as.getD i da) (bs.getD i db) := by
  intro n
  induction n with
  | zero =>
    intro as bs ha _
    rw [List.length_eq_zero] at ha
    subst ha
    simp
  | succ n ih =>
    intro as bs ha hb
    cases as with
    | nil => simp at ha
    | cons a as =>
      cases bs with
      | nil => simp at hb
      | cons b bs =>
        rw [List.zipWith_cons_cons, List.sum_cons, Finset.sum_range_succ']
        simp only [List.getD_cons_succ, List.getD_cons_zero]
        rw [ih as bs (by simpa using ha) (by simpa using hb)]
        exact add_comm _ _

/-- Sum of a three-way zip of equal-length lists, indexed through `getD`. -/
lemma sum_zipWith3_getD {α β γ M : Type} [AddCommMonoid M] (f : α → β → γ → M)
    (da : α) (db : β) (dc : γ) :
    ∀ (n : ℕ) (as : List α) (bs : List β) (cs : List γ),
      as.length = n → bs.length = n → cs.length = n →
      (List.zipWith3 f as bs cs).sum =
        ∑ i in Finset.range n, f (as.getD i da) (bs.getD i db) (cs.getD i dc) := by
  intro n
  induction n with
  | zero =>
    intro as bs cs ha _ _
    rw [List.length_eq_zero] at ha
    subst ha
    simp [List.zipWith3]
  | succ n ih =>
    intro as bs cs ha hb hc
    cases as with
    | nil => simp at ha
    | cons a as =>
      cases bs with
      | nil => simp at hb
      | cons b bs =>
        cases cs with
        | nil => simp at hc
        | cons c cs =>
          rw [show List.zipWith3 f (a :: as) (b :: bs) (c :: cs) =
              f a b c :: List.zipWith3 f as bs cs from rfl,
            List.sum_cons, Finset.sum_range_succ']
          simp only [List.getD_cons_succ, List.getD_cons_zero]
          rw [ih as bs cs (by simpa using ha) (by simpa using hb) (by simpa using hc)]
          exact add_comm _ _

/-- Length of a three-way zip of equal-length lists. -/
lemma length_zipWith3_eq {α β γ δ : Type} (f : α → β → γ → δ) :
    ∀ (n : ℕ) (as : List α) (bs : List β) (cs : List γ),
      as.length = n → bs.length = n → cs.length = n →
      (List.zipWith3 f as bs cs).length = n := by
  intro n
  induction n with
  | zero =>
    intro as bs cs ha _ _
    rw [List.length_eq_zero] at ha
    subst ha
    rfl
  | succ n ih =>
    intro as bs cs ha hb hc
    cases as with
    | nil => simp at ha
    | cons a as =>
      cases bs with
      | nil => simp at hb
      | cons b bs =>
        cases cs with
        | nil => simp at hc
        | cons c cs =>
          rw [show List.zipWith3 f (a :: as) (b :: bs) (c :: cs) =
              f a b c :: List.zipWith3 f as bs cs from rfl, List.length_cons,
            ih as bs cs (by simpa using ha) (by simpa using hb) (by simpa using hc)]

/-- Reading a list below its length yields a member. -/
lemma getD_mem_of_lt {α : Type} (l : List α) (d : α) (i : ℕ) (h : i < l.length) :
    l.getD i d ∈ l := by
  rw [List.getD_eq_getElem _ _ h]
  exact List.getElem_mem h

/-- Entry `j < max_len` of the mask row is the binary indicator `j < l`. -/
lemma maskRow_getD (L l j : ℕ) (hj : j < L) :
    (maskRow L l).getD j 0 = if j < l then (1 : ℚ) else 0 := by
  rw [maskRow, getD_map_of_lt (fun j => if j < l then (1 : ℚ) else 0) (List.range L) 0 0 j
      (by simpa using hj), List.getD_eq_getElem _ _ (by simpa using hj), List.getElem_range]

/-- Sum of a mask row as an indicator sum. -/
lemma maskRow_sum (L l : ℕ) :
    (maskRow L l).sum = ∑ j in Finset.range L, if j < l then (1 : ℚ) else 0 := by
  rw [maskRow, sum_map_range_eq]

/-- The mask row over width `max_len` has length `max_len`. -/
lemma maskRow_length (L l : ℕ) : (maskRow L l).length = L := by
  rw [maskRow, List.length_map, List.length_range]

/-- C1: for a probability tensor of shape `(batch, length)` and a reward
vector of length `batch`: with per-sequence lengths `idxs` given,
`cal_reward_loss` is the mean over the batch of
`(Σ_j -log(p i j) * reward i * [j < idxs i]) / (Σ_j [j < idxs i])`; with
`idxs = None` it is the mean over all `batch * length` entries of
`-log(p i j) * reward i`. -/
theorem C1_cal_reward_loss_formula (logf : ℚ → ℚ) (sample_probs : List (List ℚ))
    (reward : List ℚ) (B L : ℕ) (hB : sample_probs.length = B)
    (hrect : ∀ row ∈ sample_probs, row.length = L) (hr : reward.length = B) :
    (∀ ls : List ℕ, ls.length = B →
      cal_reward_loss logf sample_probs reward (some ls) =
        (∑ i in Finset.range B,
          (∑ j in Finset.range L,
            -logf ((sample_probs.getD i []).getD j 0) * reward.getD i 0 *
              (if j < ls.getD i 0 then 1 else 0)) /
          (∑ j in Finset.range L, if j < ls.getD i 0 then (1 : ℚ) else 0)) / B) ∧
    cal_reward_loss logf sample_probs reward none =
      (∑ i in Finset.range B, ∑ j in Finset.range L,
        -logf ((sample_probs.getD i []).getD j 0) * reward.getD i 0) / (B * L) := by
  have hlp : (sample_probs.map (fun row => row.map logf)).length = B := by
    simpa using hB
  constructor
  · intro ls hls
    rw [show cal_reward_loss logf sample_probs reward (some ls) =
        tensorMean (List.zipWith3
          (fun lp r l =>
            (List.zipWith (fun x mm => -x * r * mm) lp
                (maskRow (sample_probs.headD []).length l)).sum /
              (maskRow (sample_probs.headD []).length l).sum)
          (sample_probs.map (fun row => row.map logf)) reward ls) from rfl]
    rcases Nat.eq_zero_or_pos B with hB0 | hBpos
    · subst hB0
      rw [List.length_eq_zero] at hB hr hls
      subst hB; subst hr; subst hls
      simp [tensorMean, List.zipWith3]
    · have hml : (sample_probs.headD []).length = L := by
        cases sample_probs with
        | nil => simp at hB; omega
        | cons a as => simpa using hrect a (List.mem_cons_self a as)
      rw [hml, tensorMean,
        length_zipWith3_eq _ B _ _ _ hlp hr hls,
        sum_zipWith3_getD _ [] 0 0 B _ _ _ hlp hr hls]
      refine congrArg (fun z => z / (B : ℚ)) (Finset.sum_congr rfl fun i hi => ?_)
      have hiB : i < B := Finset.mem_range.mp hi
      have hi' : i < sample_probs.length := hB ▸ hiB
      have hrow : (sample_probs.getD i []).length = L :=
        hrect _ (getD_mem_of_lt sample_probs [] i hi')
      rw [getD_map_of_lt (fun row => row.map logf) sample_probs [] [] i hi',
        List.zipWith_map_left,
        sum_zipWith_getD (fun (x : ℚ) (mm : ℚ) => -logf x * reward.getD i 0 * mm) 0 0 L _ _
          hrow (maskRow_length L _),
        maskRow_sum]
      refine congrArg₂ (· / ·) (Finset.sum_congr rfl fun j hj => ?_) rfl
      rw [maskRow_getD L _ j (Finset.mem_range.mp hj)]
  · rw [show cal_reward_loss logf sample_probs reward none =
        tensorMean (List.zipWith (fun lp r => lp.map (fun x => -x * r))
          (sample_probs.map (fun row => row.map logf)) reward).flatten from rfl]
    rw [tensorMean, List.sum_flatten, List.map_zipWith,
      sum_zipWith_getD _ [] 0 B _ _ hlp hr]
    have hflen : ((List.zipWith (fun lp r => lp.map (fun x => -x * r))
        (sample_probs.map (fun row => row.map logf)) reward).flatten).length = B * L := by
      rw [List.length_flatten, List.map_zipWith,
        sum_zipWith_getD _ [] 0 B _ _ hlp hr]
      have : ∀ i ∈ Finset.range B,
          (((sample_probs.map (fun row => row.map logf)).getD i []).map
            (fun x => -x * reward.getD i 0)).length = L := by
        intro i hi
        have hi' : i < sample_probs.length := hB ▸ Finset.mem_range.mp hi
        rw [List.length_map, getD_map_of_lt (fun row => row.map logf) sample_probs [] [] i hi',
          List.length_map]
        exact hrect _ (getD_mem_of_lt sample_probs [] i hi')
      rw [Finset.sum_congr rfl this, Finset.sum_const, Finset.card_range, smul_eq_mul]
    rw [hflen]
    have hnum : ∀ i ∈ Finset.range B,
        (((sample_probs.map (fun row => row.map logf)).getD i []).map
          (fun x => -x * reward.getD i 0)).sum =
        ∑ j in Finset.range L,
          -logf ((sample_probs.getD i []).getD j 0) * reward.getD i 0 := by
      intro i hi
      have hi' : i < sample_probs.length := hB ▸ Finset.mem_range.mp hi
      have hrow : (sample_probs.getD i []).length = L :=
        hrect _ (getD_mem_of_lt sample_probs [] i hi')
      rw [getD_map_of_lt (fun row => row.map logf) sample_probs [] [] i hi', List.map_map,
        sum_map_getD _ 0 L _ hrow]
      rfl
    rw [Finset.sum_congr rfl hnum]
    push_cast
    ring

/-- C1 witness: a concrete 2-by-2 probability tensor, unit rewards and
lengths `[1, 2]`, instantiating the masked branch of the theorem. -/
theorem C1_cal_reward_loss_formula_witness :
    cal_reward_loss (fun x => x) [[1, 1], [1, 1]] [1, 1] (some [1, 2]) =
      (∑ i in Finset.range 2,
        (∑ j in Finset.range 2,
          -(fun x => x) ((([[1, 1], [1, 1]] : List (List ℚ)).getD i []).getD j 0) *
            ([1, 1] : List ℚ).getD i 0 *
            (if j < ([1, 2] : List ℕ).getD i 0 then 1 else 0)) /
        (∑ j in Finset.range 2,
          if j < ([1, 2] : List ℕ).getD i 0 then (1 : ℚ) else 0)) / 2 :=
  (C1_cal_reward_loss_formula (fun x => x) [[1, 1], [1, 1]] [1, 1] 2 2 (by decide)
      (by decide) (by decide)).1 [1, 2] (by decide)

/-- Unfolding of the masked branch of `cal_reward_loss`. -/
lemma cal_reward_loss_some (logf : ℚ → ℚ) (sample_probs : List (List ℚ))
    (reward : List ℚ) (ls : List ℕ) :
    cal_reward_loss logf sample_probs reward (some ls) =
      tensorMean (List.zipWith3
        (fun lp r l =>
          (List.zipWith (fun x mm => -x * r * mm) lp
              (maskRow (sample_probs.headD []).length l)).sum /
            (maskRow (sample_probs.headD []).length l).sum)
        (sample_probs.map (fun row => row.map logf)) reward ls) := rfl

/-- Unfolding of the unmasked branch of `cal_reward_loss`. -/
lemma cal_reward_loss_none (logf : ℚ → ℚ) (sample_probs : List (List ℚ))
    (reward : List ℚ) :
    cal_reward_loss logf sample_probs reward none =
      tensorMean (List.zipWith (fun lp r => lp.map (fun x => -x * r))
        (sample_probs.map (fun row => row.map logf)) reward).flatten := rfl

/-- Mapping the middle list before a three-way zip composes into the
zip function. -/
lemma zipWith3_map_mid {α β β' γ δ : Type} (f : α → β' → γ → δ) (g : β → β')
    (as : List α) (bs : List β) (cs : List γ) :
    List.zipWith3 f as (bs.map g) cs =
      List.zipWith3 (fun a b c => f a (g b) c) as bs cs := by
  induction as generalizing bs cs with
  | nil => rfl
  | cons a as ih =>
    cases bs with
    | nil => rfl
    | cons b bs =>
      cases cs with
      | nil => rfl
      | cons c cs =>
        rw [List.map_cons,
          show List.zipWith3 f (a :: as) (g b :: bs.map g) (c :: cs) =
            f a (g b) c :: List.zipWith3 f as (bs.map g) cs from rfl,
          show List.zipWith3 (fun a b c => f a (g b) c) (a :: as) (b :: bs) (c :: cs) =
            f a (g b) c :: List.zipWith3 (fun a b c => f a (g b) c) as bs cs from rfl,
          ih]

/-- A common scalar factor moves out of a three-way zip. -/
lemma zipWith3_map_out {α β γ : Type} (f : α → β → γ → ℚ) (k : ℚ)
    (as : List α) (bs : List β) (cs : List γ) :
    List.zipWith3 (fun a b c => k * f a b c) as bs cs =
      (List.zipWith3 f as bs cs).map (fun x => k * x) := by
  induction as generalizing bs cs with
  | nil => rfl
  | cons a as ih =>
    cases bs with
    | nil => rfl
    | cons b bs =>
      cases cs with
      | nil => rfl
      | cons c cs =>
        rw [show List.zipWith3 (fun a b c => k * f a b c) (a :: as) (b :: bs) (c :: cs) =
            k * f a b c :: List.zipWith3 (fun a b c => k * f a b c) as bs cs from rfl,
          show List.zipWith3 f (a :: as) (b :: bs) (c :: cs) =
            f a b c :: List.zipWith3 f as bs cs from rfl,
          List.map_cons, ih]

/-- Scaling the reward scales each masked weighted row sum. -/
lemma sum_zipWith_neg_mul_smul (k r : ℚ) (lp m : List ℚ) :
    (List.zipWith (fun x mm => -x * (k * r) * mm) lp m).sum =
      k * (List.zipWith (fun x mm => -x * r * mm) lp m).sum := by
  induction lp generalizing m with
  | nil => simp
  | cons a lp ih =>
    cases m with
    | nil => simp
    | cons b m =>
      rw [List.zipWith_cons_cons, List.zipWith_cons_cons, List.sum_cons, List.sum_cons, ih]
      ring

/-- A scalar factor moves out of a list sum. -/
lemma sum_map_mul_scalar (k : ℚ) (l : List ℚ) :
    (l.map (fun x => k * x)).sum = k * l.sum := by
  induction l with
  | nil => simp
  | cons a l ih =>
    rw [List.map_cons, List.sum_cons, List.sum_cons, ih]
    ring

/-- A scalar factor moves out of a tensor mean. -/
lemma tensorMean_smul (k : ℚ) (l : List ℚ) :
    tensorMean (l.map (fun x => k * x)) = k * tensorMean l := by
  rw [tensorMean, tensorMean, List.length_map, sum_map_mul_scalar, mul_div_assoc]

/-- Scaling the reward scales each unmasked weighted row sum. -/
lemma sum_map_neg_mul_smul (k r : ℚ) (row : List ℚ) :
    (row.map (fun x => -x * (k * r))).sum = k * (row.map (fun x => -x * r)).sum := by
  induction row with
  | nil => simp
  | cons a row ih =>
    rw [List.map_cons, List.map_cons, List.sum_cons, List.sum_cons, ih]
    ring

/-- Scaling the reward scales the flattened unmasked output sum. -/
lemma flatten_sum_scale (k : ℚ) :
    ∀ (lp : List (List ℚ)) (rws : List ℚ),
      ((List.zipWith (fun row r => row.map (fun x => -x * (k * r))) lp rws).flatten).sum =
        k * ((List.zipWith (fun row r => row.map (fun x => -x * r)) lp rws).flatten).sum := by
  intro lp
  induction lp with
  | nil => intro rws; simp
  | cons row lp ih =>
    intro rws
    cases rws with
    | nil => simp
    | cons r rws =>
      rw [List.zipWith_cons_cons, List.zipWith_cons_cons, List.flatten_cons, List.flatten_cons,
        List.sum_append, List.sum_append, sum_map_neg_mul_smul, ih]
      ring

/-- Scaling the reward keeps the flattened output length. -/
lemma flatten_len_scale (k : ℚ) :
    ∀ (lp : List (List ℚ)) (rws : List ℚ),
      ((List.zipWith (fun row r => row.map (fun x => -x * (k * r))) lp rws).flatten).length =
        ((List.zipWith (fun row r => row.map (fun x => -x * r)) lp rws).flatten).length := by
  intro lp
  induction lp with
  | nil => intro rws; rfl
  | cons row lp ih =>
    intro rws
    cases rws with
    | nil => rfl
    | cons r rws =>
      rw [List.zipWith_cons_cons, List.zipWith_cons_cons, List.flatten_cons, List.flatten_cons,
        List.length_append, List.length_append, List.length_map, List.length_map, ih]

/-- C8: `cal_reward_loss` is homogeneous in the reward: scaling the
reward vector by a scalar `k` scales the loss by `k`, in both the masked
and the unmasked branch (the reward enters each term multiplicatively
while the log term is fixed). -/
theorem C8_cal_reward_loss_linear (logf : ℚ → ℚ) (sample_probs : List (List ℚ))
    (reward : List ℚ) (idxs : Option (List ℕ)) (k : ℚ) :
    cal_reward_loss logf sample_probs (reward.map (fun r => k * r)) idxs =
      k * cal_reward_loss logf sample_probs reward idxs := by
  cases idxs with
  | some ls =>
    rw [cal_reward_loss_some, cal_reward_loss_some]
    simp only [zipWith3_map_mid]
    simp only [sum_zipWith_neg_mul_smul, mul_div_assoc]
    rw [zipWith3_map_out, tensorMean_smul]
  | none =>
    rw [cal_reward_loss_none, cal_reward_loss_none]
    simp only [List.zipWith_map_right]
    rw [tensorMean, tensorMean, flatten_sum_scale, flatten_len_scale, mul_div_assoc]

/-- C8 witness: the linearity theorem applied at a concrete tensor,
reward and scale. -/
theorem C8_cal_reward_loss_linear_witness :
    cal_reward_loss (fun x => x) [[1, 1]] ([1].map (fun r => (3 : ℚ) * r)) (some [1]) =
      3 * cal_reward_loss (fun x => x) [[1, 1]] [1] (some [1]) :=
  C8_cal_reward_loss_linear (fun x => x) [[1, 1]] [1] (some [1]) 3

/-- C4 witness: a batch of two rows of length 5 with target lengths 5;
the first sampled row holds the eos id 2 first at position 3, so its
truncation has length 3 (not 5), while the eos-free greedy row is cut at
`i - 1 = 4` and the reference keeps positions 1..4. -/
theorem C4_bl_truncation_witness :
    (bl_truncations 2 [5, 5] [[9, 9, 9, 2, 9], [9, 9, 9, 9, 9]]
          [[8, 8, 8, 8, 8], [8, 2, 8, 8, 8]] [[7, 7, 7, 7, 7], [6, 6, 6, 6, 6]]).getD 0
        ([], [], []) = ([9, 9, 9], [8, 8, 8, 8], [7, 7, 7, 7]) ∧
    ([9, 9, 9] : List ℕ).length = 3 := by
  have h := (C4_bl_truncation 2 [5, 5] [[9, 9, 9, 2, 9], [9, 9, 9, 9, 9]]
      [[8, 8, 8, 8, 8], [8, 2, 8, 8, 8]] [[7, 7, 7, 7, 7], [6, 6, 6, 6, 6]] 2
      (by decide) (by decide) (by decide) (by decide) (by decide)).2 0 (by decide)
  rw [h]
  exact ⟨by decide, by decide⟩

/-- The sampled index tensor has one row per batch row. -/
lemma sampled3_snd_length (expf logf : ℚ → ℚ) (multinomial : List (List ℚ) → List ℕ)
    (out : List (List (List ℚ))) :
    (sampled3 expf logf multinomial out).2.length = out.length := by
  rw [sampled3, sample_3d_temp_one]
  simp [softmax3d]

/-- The greedy index tensor has one row per batch row. -/
lemma bl_greedy_idx_length (expf : ℚ → ℚ) (out : List (List (List ℚ))) :
    (bl_greedy_idx expf out).length = out.length := by
  simp [bl_greedy_idx, softmax3d]

/-- C5: in `cal_bl_loss`, the reward fed into `cal_reward_loss` is, per
batch row, `(BLEU(greedy vs reference) - BLEU(sampled vs reference)) * 0.2`
over the truncated sequences, and `cal_reward_loss` is called with the
sampled probabilities and the per-sequence lengths `idx` driving the
mask. -/
theorem C5_self_critical_reward (gm expf logf : ℚ → ℚ)
    (multinomial : List (List ℚ) → List ℕ) (out : List (List (List ℚ)))
    (tgt : List (List ℕ)) (idx : List ℕ) (eos : ℕ) (B : ℕ)
    (hout : out.length = B) (htgt : tgt.length = B) (hidx : idx.length = B) :
    cal_bl_loss gm expf logf multinomial out tgt idx eos =
      cal_reward_loss logf (sampled3 expf logf multinomial out).1
        (List.ofFn (fun b : Fin B =>
          (sentence_bleu gm
              ((bl_trunc expf logf multinomial out tgt idx eos).getD b ([], [], [])).2.2
              ((bl_trunc expf logf multinomial out tgt idx eos).getD b ([], [], [])).2.1 -
            sentence_bleu gm
              ((bl_trunc expf logf multinomial out tgt idx eos).getD b ([], [], [])).2.2
              ((bl_trunc expf logf multinomial out tgt idx eos).getD b ([], [], [])).1) *
          (1 / 5)))
        (some idx) := by
  have hsam : (sampled3 expf logf multinomial out).2.length = B := by
    rw [sampled3_snd_length, hout]
  have hgre : (bl_greedy_idx expf out).length = B := by
    rw [bl_greedy_idx_length, hout]
  have htr : (bl_trunc expf logf multinomial out tgt idx eos).length = B := by
    rw [bl_trunc, bl_truncations,
      zipWith4_length_eq _ idx _ _ _ (hsam.trans hidx.symm) (hgre.trans hidx.symm)
        (htgt.trans hidx.symm), hidx]
  rw [show cal_bl_loss gm expf logf multinomial out tgt idx eos =
      cal_reward_loss logf (sampled3 expf logf multinomial out).1
        ((List.zipWith (fun g s => g - s)
            (cal_bl_reward gm
              ((bl_trunc expf logf multinomial out tgt idx eos).map (fun x => x.2.1))
              ((bl_trunc expf logf multinomial out tgt idx eos).map (fun x => x.2.2)))
            (cal_bl_reward gm
              ((bl_trunc expf logf multinomial out tgt idx eos).map (fun x => x.1))
              ((bl_trunc expf logf multinomial out tgt idx eos).map (fun x => x.2.2)))).map
          (fun x => x * (1 / 5)))
        (some idx) from rfl]
  refine congrArg
    (fun rr => cal_reward_loss logf (sampled3 expf logf multinomial out).1 rr (some idx)) ?_
  apply List.ext_getElem
  · simp [cal_bl_reward, htr]
  · intro b h1 h2
    have hb : b < B := by
      simpa [List.length_ofFn] using h2
    have hbtr : b < (bl_trunc expf logf multinomial out tgt idx eos).length := htr ▸ hb
    simp only [List.getElem_map, List.getElem_zipWith, List.getElem_ofFn, cal_bl_reward,
      List.getElem_zip]
    rw [List.getD_eq_getElem _ _ hbtr]

/-- C5 witness: a concrete one-row batch instantiating the theorem. -/
theorem C5_self_critical_reward_witness :
    cal_bl_loss (fun x => x) (fun x => x) (fun x => x) (fun s => s.map (fun _ => 0))
        [[[1]]] [[5, 6]] [1] 0 =
      cal_reward_loss (fun x => x)
        (sampled3 (fun x => x) (fun x => x) (fun s => s.map (fun _ => 0)) [[[1]]]).1
        (List.ofFn (fun b : Fin 1 =>
          (sentence_bleu (fun x => x)
              ((bl_trunc (fun x => x) (fun x => x) (fun s => s.map (fun _ => 0)) [[[1]]]
                  [[5, 6]] [1] 0).getD b ([], [], [])).2.2
              ((bl_trunc (fun x => x) (fun x => x) (fun s => s.map (fun _ => 0)) [[[1]]]
                  [[5, 6]] [1] 0).getD b ([], [], [])).2.1 -
            sentence_bleu (fun x => x)
              ((bl_trunc (fun x => x) (fun x => x) (fun s => s.map (fun _ => 0)) [[[1]]]
                  [[5, 6]] [1] 0).getD b ([], [], [])).2.2
              ((bl_trunc (fun x => x) (fun x => x) (fun s => s.map (fun _ => 0)) [[[1]]]
                  [[5, 6]] [1] 0).getD b ([], [], [])).1) *
          (1 / 5)))
        (some [1]) :=
  C5_self_critical_reward (fun x => x) (fun x => x) (fun x => x)
    (fun s => s.map (fun _ => 0)) [[[1]]] [[5, 6]] [1] 0 1 (by decide) (by decide) (by decide)

/-- C6: in `cal_sc_loss`, the per-sequence reward fed into
`cal_reward_loss` is the classifier's softmax probability of class 1
minus that of class 0 when the source style flag is 0, and the
probability of class 0 minus that of class 1 when the flag is 1; the
call passes the sampled probabilities and the lengths `idx`. -/
theorem C6_sc_loss_reward (expf logf : ℚ → ℚ) (multinomial : List (List ℚ) → List ℕ)
    (cls : List (List ℕ) → List (List ℚ)) (out : List (List (List ℚ)))
    (idx : List ℕ) (eos pad : ℕ) (style : ℕ) (B : ℕ)
    (hcls : ∀ x : List (List ℕ), (cls x).length = x.length)
    (hout : out.length = B) (hidx : idx.length = B) :
    cal_sc_loss expf logf multinomial cls out idx eos pad style =
      cal_reward_loss logf (sampled3 expf logf multinomial out).1
        (List.ofFn (fun b : Fin B =>
          if style = 0 then
            (softmaxRow expf
                ((cls (sc_tgt_idx expf logf multinomial out idx eos pad)).getD b [])).getD 1 0 -
              (softmaxRow expf
                ((cls (sc_tgt_idx expf logf multinomial out idx eos pad)).getD b [])).getD 0 0
          else
            (softmaxRow expf
                ((cls (sc_tgt_idx expf logf multinomial out idx eos pad)).getD b [])).getD 0 0 -
              (softmaxRow expf
                ((cls (sc_tgt_idx expf logf multinomial out idx eos pad)).getD b [])).getD 1 0))
        (some idx) := by
  have hclen : (cls (sc_tgt_idx expf logf multinomial out idx eos pad)).length = B := by
    rw [hcls, sc_tgt_idx, collate_fn]
    simp [sampled3_snd_length, hout, hidx]
  rw [show cal_sc_loss expf logf multinomial cls out idx eos pad style =
      cal_reward_loss logf (sampled3 expf logf multinomial out).1
        (if style = 0 then
          ((cls (sc_tgt_idx expf logf multinomial out idx eos pad)).map
            (softmaxRow expf)).map (fun row => row.getD 1 0 - row.getD 0 0)
        else
          ((cls (sc_tgt_idx expf logf multinomial out idx eos pad)).map
            (softmaxRow expf)).map (fun row => row.getD 0 0 - row.getD 1 0))
        (some idx) from rfl]
  refine congrArg
    (fun rr => cal_reward_loss logf (sampled3 expf logf multinomial out).1 rr (some idx)) ?_
  by_cases hst : style = 0
  · simp only [hst, if_pos]
    apply List.ext_getElem
    · simp [hclen]
    · intro b h1 h2
      have hb : b < (cls (sc_tgt_idx expf logf multinomial out idx eos pad)).length := by
        simpa [hclen] using h2
      simp only [List.getElem_map, List.getElem_ofFn, if_pos]
      rw [List.getD_eq_getElem _ _ hb]
  · simp only [hst, if_neg, if_false]
    apply List.ext_getElem
    · simp [hclen]
    · intro b h1 h2
      have hb : b < (cls (sc_tgt_idx expf logf multinomial out idx eos pad)).length := by
        simpa [hclen] using h2
      simp only [List.getElem_map, List.getElem_ofFn, hst, if_false]
      rw [List.getD_eq_getElem _ _ hb]

/-- C6 witness: a concrete one-row batch with a constant classifier,
instantiating the theorem at style flag 0. -/
theorem C6_sc_loss_reward_witness :
    cal_sc_loss (fun x => x) (fun x => x) (fun s => s.map (fun _ => 0))
        (fun x => x.map (fun _ => [1, 2])) [[[1]]] [1] 0 9 0 =
      cal_reward_loss (fun x => x)
        (sampled3 (fun x => x) (fun x => x) (fun s => s.map (fun _ => 0)) [[[1]]]).1
        (List.ofFn (fun b : Fin 1 =>
          if (0 : ℕ) = 0 then
            (softmaxRow (fun x => x)
                (((fun x : List (List ℕ) => x.map (fun _ => ([1, 2] : List ℚ)))
                    (sc_tgt_idx (fun x => x) (fun x => x) (fun s => s.map (fun _ => 0))
                      [[[1]]] [1] 0 9)).getD b [])).getD 1 0 -
              (softmaxRow (fun x => x)
                (((fun x : List (List ℕ) => x.map (fun _ => ([1, 2] : List ℚ)))
                    (sc_tgt_idx (fun x => x) (fun x => x) (fun s => s.map (fun _ => 0))
                      [[[1]]] [1] 0 9)).getD b [])).getD 0 0
          else
            (softmaxRow (fun x => x)
                (((fun x : List (List ℕ) => x.map (fun _ => ([1, 2] : List ℚ)))
                    (sc_tgt_idx (fun x => x) (fun x => x) (fun s => s.map (fun _ => 0))
                      [[[1]]] [1] 0 9)).getD b [])).getD 0 0 -
              (softmaxRow (fun x => x)
                (((fun x : List (List ℕ) => x.map (fun _ => ([1, 2] : List ℚ)))
                    (sc_tgt_idx (fun x => x) (fun x => x) (fun s => s.map (fun _ => 0))
                      [[[1]]] [1] 0 9)).getD b [])).getD 1 0))
        (some [1]) :=
  C6_sc_loss_reward (fun x => x) (fun x => x) (fun s => s.map (fun _ => 0))
    (fun x => x.map (fun _ => [1, 2])) [[[1]]] [1] 0 9 0 1
    (fun x => by simp) (by decide) (by decide)

end GenEx
